import Mathlib

/-!
Verification of the hobby_geo_stats pipeline (src/georef.py, src/processors.py)
against its natural-language specification.

Shallow embedding conventions:
* Planar geometries are modelled as finite sets of unit cells (`Finset ℕ`);
  union / intersection / difference / area of the geometry library become
  `∪ / ∩ / \ / card`.  This models exact planar geometry for the claims at
  hand: area is additive over disjoint unions and difference removes overlap.
* Floating-point numbers are modelled as exact rationals (`ℚ`), matching the
  claims, which are stated over exact arithmetic.  Projected areas of
  administrative boundaries (square metres in EPSG:25832) are modelled as
  exact integers.
* OSM tag values are modelled by `TagValue`: a value is absent, a numeric NaN,
  or a string (`processors.has_value` only distinguishes these cases).
  Python's `str.strip` / `str.lower` / substring `in` are given structural
  implementations over the character list so that they evaluate by `decide`.
* Fallible code paths (Python exceptions, `exit()`) return `Option`/`Except`.
* File persistence is modelled as exact: loading a cached dataset returns the
  value that was stored (`load_cached_mp` mirrors `extract_city`).
-/

namespace GeoStat

/-- A raw attribute value of a feature row: missing (`None` / absent key),
numeric not-a-number, or a string.  Mirrors the cases distinguished by
`processors.has_value`. -/
inductive TagValue where
  | absent : TagValue
  | nan : TagValue
  | str : String → TagValue
deriving DecidableEq

/-- ASCII lower-casing of one character, the fragment of Python `str.lower`
relevant to OSM tag tokens. -/
def lower_char (c : Char) : Char :=
  if 'A' ≤ c ∧ c ≤ 'Z' then Char.ofNat (c.toNat + 32) else c

/-- Python `str.strip`: drop leading and trailing whitespace. -/
def py_strip (s : String) : String :=
  String.mk
    (((s.data.dropWhile Char.isWhitespace).reverse.dropWhile
        Char.isWhitespace).reverse)

/-- Python `str.lower` (ASCII fragment). -/
def py_lower (s : String) : String :=
  String.mk (s.data.map lower_char)

/-- Python `v.strip().lower()`. -/
def py_strip_lower (s : String) : String :=
  py_lower (py_strip s)

/-- Embedding of `processors.has_value`: `None` and numeric NaN are empty, and
a string is empty when, stripped and lower-cased, it is "none", "null"
or "". -/
def has_value : TagValue → Bool
  | TagValue.absent => false
  | TagValue.nan => false
  | TagValue.str s =>
      !((["none", "null", ""] : List String).contains (py_strip_lower s))

/-- Python `str()` applied to a tag value (only ever reached on values that
passed `has_value`, i.e. on strings). -/
def py_str : TagValue → String
  | TagValue.absent => "None"
  | TagValue.nan => "nan"
  | TagValue.str s => s

/-- Occurrence of `pat` as a contiguous sublist. -/
def contains_substr (pat : List Char) : List Char → Bool
  | [] => pat.isEmpty
  | c :: rest => pat.isPrefixOf (c :: rest) || contains_substr pat rest

/-- Python substring containment `pat in s`. -/
def py_in (pat s : String) : Bool :=
  contains_substr pat.data s.data

/-- The tag columns read by `ProcessorOSM.classify_use`; a missing column
reads as `absent` (Python `row.get(..., None)`). -/
structure TagRow where
  amenity : TagValue := TagValue.absent
  leisure : TagValue := TagValue.absent
  tourism : TagValue := TagValue.absent
  public_transport : TagValue := TagValue.absent
  landuse : TagValue := TagValue.absent
  natural : TagValue := TagValue.absent
  building : TagValue := TagValue.absent
  other_tags : TagValue := TagValue.absent
deriving DecidableEq

/-- `processors.OSM_ECON_LANDUSE`. -/
def OSM_ECON_LANDUSE : List String :=
  ["industrial", "commercial", "retail", "construction", "farmyard"]

/-- `processors.OSM_GREEN_LANDUSE`. -/
def OSM_GREEN_LANDUSE : List String :=
  ["forest", "grass", "meadow", "recreation_ground", "village_green",
   "allotments", "farmland"]

/-- `processors.OSM_GREEN_NATURAL`. -/
def OSM_GREEN_NATURAL : List String :=
  ["wood", "grassland", "heath", "scrub", "wetland"]

/-- `processors.OSM_GREEN_LEISURE`. -/
def OSM_GREEN_LEISURE : List String := ["park", "garden", "nature_reserve"]

/-- `ProcessorOSM.get_use_priority`: the fixed UseType priority list, highest
priority first. -/
def use_priority : List String :=
  ["special_use", "economic", "water", "green", "residential",
   "building_only", "null"]

/-- Embedding of `ProcessorOSM.classify_use`, rule for rule in source
order. -/
def classify_use (row : TagRow) : String :=
  if has_value row.amenity || has_value row.public_transport
      || has_value row.tourism then "special_use"
  else if has_value row.landuse && (row.landuse == TagValue.str "cemetery") then
    "special_use"
  else if has_value row.leisure then
    (if OSM_GREEN_LEISURE.contains (py_str row.leisure) then "green"
     else "special_use")
  else if has_value row.landuse
      && OSM_ECON_LANDUSE.contains (py_str row.landuse) then "economic"
  else if has_value row.landuse && (py_str row.landuse == "residential") then
    "residential"
  else if has_value row.natural
      && OSM_GREEN_NATURAL.contains (py_str row.natural) then "green"
  else if has_value row.landuse
      && OSM_GREEN_LANDUSE.contains (py_str row.landuse) then "green"
  else if has_value row.building then "building_only"
  else if (has_value row.other_tags
        && py_in "water" (py_str row.other_tags))
      || (has_value row.natural && (row.natural == TagValue.str "water")) then
    "water"
  else "null"

/-- One row of `self.boundaries_within`: a sub-boundary with its name and
geometry (identifier columns are irrelevant to the claims). -/
structure SubBoundary where
  name : String
  geometry : Finset ℕ
deriving DecidableEq

/-- One row of `self.all_mp_within`: tags, geometry and the
`georef_use_type` column (meaningless until `add_use_classification` has
run). -/
structure Feature where
  tags : TagRow
  geometry : Finset ℕ
  use_type : String
deriving DecidableEq

/-- `GeoSeries.union_all()` over a list of geometries (empty union is the
empty geometry). -/
def union_all (gs : List (Finset ℕ)) : Finset ℕ :=
  gs.foldr (fun a b => a ∪ b) ∅

/-- Embedding of `GeoStat.fix_sub_boundaries` (step 2).  Computes
`rest = city \ (union of sub-boundaries ∩ city)`; if the rest is empty or
has zero area the set is unchanged, otherwise one synthetic "Restgebiet"
sub-boundary carrying the rest geometry is appended.  The Restgebiet row is
built from the first row of the sub-boundary set
(`boundaries_within.iloc[[0]]`), so on an empty set that lookup raises
`IndexError` — modelled by `none`. -/
def fix_sub_boundaries (city_geom : Finset ℕ) (boundaries : List SubBoundary) :
    Option (List SubBoundary) :=
  let boundaries_union :=
    (union_all (boundaries.map SubBoundary.geometry)) ∩ city_geom
  let rest_geom := city_geom \ boundaries_union
  if rest_geom.card = 0 then some boundaries
  else
    match boundaries with
    | [] => none
    | b :: _ =>
        let tmp := { b with name := "Restgebiet", geometry := rest_geom }
        some (boundaries ++ [tmp])

/-- Embedding of `GeoStat.add_use_classification` (step 3): write the
`georef_use_type` column by applying `classify_use` to every feature row. -/
def add_use_classification (features : List Feature) : List Feature :=
  features.map (fun f => { f with use_type := classify_use f.tags })

/-- The `use_type_unions` dict of `compute_statistics`: per UseType, `None`
when no feature carries the label, else the union of their geometries. -/
def use_type_unions (features : List Feature) (p : String) :
    Option (Finset ℕ) :=
  let part := features.filter (fun f => f.use_type == p)
  if part.isEmpty then none
  else some (union_all (part.map Feature.geometry))

/-- One iteration of the overlap-resolution loop of `compute_statistics`:
given this UseType's union and the running higher-priority union, produce the
exclusive (diffed) geometry and the updated running union. -/
def diff_step (geom acc : Option (Finset ℕ)) :
    Option (Finset ℕ) × Option (Finset ℕ) :=
  match geom with
  | none => (none, acc)
  | some g =>
      match acc with
      | none => (some g, some g)
      | some h => (some (g \ h), some (h ∪ g))

/-- The `diffed_areas` dict of `compute_statistics`: walk the priority list,
threading the running higher-priority union through `diff_step`.  Keys are
kept in priority order. -/
def diffed_areas (unions : String → Option (Finset ℕ)) :
    List String → Option (Finset ℕ) → List (String × Option (Finset ℕ))
  | [], _ => []
  | p :: ps, acc =>
      let s := diff_step (unions p) acc
      (p, s.1) :: diffed_areas unions ps s.2

/-- Area of `geom ∩ d_geom` as used inside `_get_area_dict`; a `None` diffed
geometry contributes `0.0`. -/
def areaOf (geom : Finset ℕ) : Option (Finset ℕ) → ℚ
  | none => 0
  | some d => ((geom ∩ d).card : ℚ)

/-- The tail of `_get_area_dict`: add the floored-at-zero unassigned
remainder to the "null" bucket (`ret["null"] += null_area` when the key
exists, else `ret["null"] = null_area`). -/
def bump_null (entries : List (String × ℚ)) (null_area : ℚ) :
    List (String × ℚ) :=
  if entries.any (fun pv => pv.1 == "null") then
    entries.map (fun pv =>
      if pv.1 == "null" then (pv.1, pv.2 + null_area) else pv)
  else entries ++ [("null", null_area)]

/-- Embedding of `_get_area_dict`: per-UseType intersection areas against the
given boundary geometry (in priority order), the "null" bucket receiving the
floored-at-zero remainder, and `total_area` the boundary's own area. -/
def get_area_dict (diffed : List (String × Option (Finset ℕ)))
    (geom : Finset ℕ) : List (String × ℚ) × ℚ :=
  let base := diffed.map (fun pd => (pd.1, areaOf geom pd.2))
  let assigned := (base.map Prod.snd).sum
  (bump_null base (max 0 ((geom.card : ℚ) - assigned)), (geom.card : ℚ))

/-- Round-half-to-even to an integer, the rounding mode of
`numpy`/`pandas.DataFrame.round`. -/
def round_half_even (q : ℚ) : ℤ :=
  if q - ⌊q⌋ < 1/2 then ⌊q⌋
  else if 1/2 < q - ⌊q⌋ then ⌊q⌋ + 1
  else if 2 ∣ ⌊q⌋ then ⌊q⌋ else ⌊q⌋ + 1

/-- `DataFrame.round(2)` on one value: round to 2 decimal places. -/
def round2 (q : ℚ) : ℚ :=
  (round_half_even (q * 100) : ℚ) / 100

/-- One row of the emitted statistics table: boundary name, per-UseType areas
in priority order (the "null" bucket included), `total_area` and the
per-UseType percentage columns. -/
structure StatRow where
  name : String
  areas : List (String × ℚ)
  total_area : ℚ
  pcts : List (String × ℚ)
deriving DecidableEq

instance : Inhabited StatRow :=
  ⟨{ name := "", areas := [], total_area := 0, pcts := [] }⟩

/-- One statistics record before rounding: `_get_area_dict` plus the
`<use_type>_pct = area / total_area * 100` columns added afterwards. -/
def make_row (row_name : String)
    (diffed : List (String × Option (Finset ℕ))) (geom : Finset ℕ) :
    StatRow :=
  let ad := get_area_dict diffed geom
  { name := row_name
    areas := ad.1
    total_area := ad.2
    pcts := ad.1.map (fun pv => (pv.1 ++ "_pct", pv.2 / ad.2 * 100)) }

/-- `stats_df.round(2)`: every numeric column of a row rounded to 2 decimal
places (the name column is untouched). -/
def round_row (r : StatRow) : StatRow :=
  { name := r.name
    areas := r.areas.map (fun pv => (pv.1, round2 pv.2))
    total_area := round2 r.total_area
    pcts := r.pcts.map (fun pv => (pv.1, round2 pv.2)) }

/-- Embedding of `GeoStat.compute_statistics` (step 4): per-UseType unions,
priority-ordered overlap resolution, one row for the union of all features
(labeled `all (<city>)`) followed by one row per sub-boundary, percentage
columns, and rounding of the whole table. -/
def compute_statistics (city_name : String) (features : List Feature)
    (boundaries : List SubBoundary) : List StatRow :=
  let full_union := union_all (features.map Feature.geometry)
  let diffed := diffed_areas (use_type_unions features) use_priority none
  let main_row := make_row ("all (" ++ city_name ++ ")") diffed full_union
  let rows := main_row :: boundaries.map
    (fun b => make_row b.name diffed b.geometry)
  rows.map round_row

/-- The in-memory data sets of the orchestrator after extraction: the city
geometry, `boundaries_within` and `all_mp_within`.  Cache files hold exactly
these values (`load_cached_mp` mirrors `extract_city`). -/
structure PipeData where
  city : Finset ℕ
  boundaries : List SubBoundary
  features : List Feature
deriving DecidableEq

/-- `georef.STATE_MAPPING`. -/
def STATE_MAPPING : List (String × ℕ) :=
  [("city_extracted", 1), ("boundaries_fixed", 2), ("use_type_added", 3)]

/-- `STATE_MAPPING.get(cached_state, 0)` in `main`: the starting stage index
for a cached state (`0` when the city is unknown). -/
def state_index_of (cached_state : Option String) : ℕ :=
  match cached_state with
  | none => 0
  | some s => (STATE_MAPPING.lookup s).getD 0

/-- The staged body of `georef.main`: starting from `state_index`, use the
extracted data (stage index `< 1`) or the cached data, run
`fix_sub_boundaries` when the index is `< 2`, `add_use_classification` when
`< 3`, and `compute_statistics` when `< 4` (which every reachable index
satisfies). -/
def run_from (state_index : ℕ) (city_name : String)
    (extracted cached : PipeData) : Option (List StatRow) :=
  let d := if state_index < 1 then extracted else cached
  match (if state_index < 2 then fix_sub_boundaries d.city d.boundaries
         else some d.boundaries) with
  | none => none
  | some bs =>
      let fs := if state_index < 3 then add_use_classification d.features
                else d.features
      if state_index < 4 then some (compute_statistics city_name fs bs)
      else none

/-- A same-named City candidate in `extract_city`: its name and its area in
the equal-area projected CRS (EPSG:25832), in square metres. -/
structure AdminBoundary where
  name : String
  area_m2 : ℤ
deriving DecidableEq

/-- A row of maximal `area_m2`, modelling
`candidates.sort_values("area_m2", ascending=False).iloc[[0]]`. -/
def pick_largest (c : AdminBoundary) (cs : List AdminBoundary) :
    AdminBoundary :=
  cs.foldl (fun best x => if best.area_m2 < x.area_m2 then x else best) c

/-- Candidate selection of `extract_city`: exact-name filter, `none` when no
candidate exists (the source calls `exit()`), else the candidate of maximal
projected area. -/
def extract_city_candidate (requested : String)
    (admin_boundaries : List AdminBoundary) : Option AdminBoundary :=
  match admin_boundaries.filter (fun b => b.name == requested) with
  | [] => none
  | c :: cs => some (pick_largest c cs)

/-- Minimum of a list of admin levels (`valid["admin_level"].min()`); `none`
on the empty list. -/
def list_min : List ℤ → Option ℤ
  | [] => none
  | x :: xs => some (xs.foldl min x)

/-- Embedding of `ProcessorOSM.set_subcity_admin_level`: among the admin
levels strictly greater than the city's level, fail
(`ValueError("cant determine sub_admin_level")`) when there is none,
otherwise offer the minimum as default, overridable by the operator
(`operator_choice = none` models pressing enter, accepting the default). -/
def set_subcity_admin_level (admin_levels : List ℤ) (city_level : ℤ)
    (operator_choice : Option ℤ) : Except String ℤ :=
  match list_min (admin_levels.filter (fun l => city_level < l)) with
  | none => Except.error "cant determine sub_admin_level"
  | some d => Except.ok (operator_choice.getD d)

/-- Two entries of the diffed-areas list have disjoint exclusive
geometries. -/
def DisjointEntry (a b : String × Option (Finset ℕ)) : Prop :=
  ∀ d₁ d₂, a.2 = some d₁ → b.2 = some d₂ → d₁ ∩ d₂ = ∅

/-- Concrete unions used to witness C2: special_use covers cells 0 and 1,
economic covers cells 1 and 2. -/
def u₀ : String → Option (Finset ℕ) := fun p =>
  if p = "special_use" then some ({0, 1} : Finset ℕ)
  else if p = "economic" then some ({1, 2} : Finset ℕ)
  else none

/-- An arbitrary overlapping assignment of exclusive geometries refuting the
universally-quantified form of the area-conservation claim: special_use and
economic both claim cell 0 exclusively. -/
def bad_diffed : List (String × Option (Finset ℕ)) :=
  [("special_use", some {0}), ("economic", some {0}), ("water", none),
   ("green", none), ("residential", none), ("building_only", none),
   ("null", none)]

/-- The single statistics row of a run on an empty Feature and SubBoundary
set, used to witness C10. -/
def stat_row₀ : StatRow :=
  { name := "all (c)"
    areas := [("special_use", 0), ("economic", 0), ("water", 0), ("green", 0),
              ("residential", 0), ("building_only", 0), ("null", 0)]
    total_area := 0
    pcts := [("special_use_pct", 0), ("economic_pct", 0), ("water_pct", 0),
             ("green_pct", 0), ("residential_pct", 0),
             ("building_only_pct", 0), ("null_pct", 0)] }

/-- A concrete pipeline input for the C5 counterexample: the City geometry
has area 2, the single Feature only covers area 1. -/
def cex_data : PipeData :=
  { city := {0, 1}
    boundaries := [{ name := "b", geometry := {0, 1} }]
    features := [{ tags := {}, geometry := {0}, use_type := "" }] }

/-- A pipeline input on which the fix-sub-boundaries stage succeeds, used to
witness C7. -/
def w_data : PipeData :=
  { city := {0}
    boundaries := [⟨"b", ({0} : Finset ℕ)⟩]
    features := [] }

end GeoStat

namespace GeoStat

theorem diffed_areas_cons (u : String → Option (Finset ℕ)) (p : String)
    (ps : List String) (acc : Option (Finset ℕ)) :
    diffed_areas u (p :: ps) acc
      = (p, (diff_step (u p) acc).1)
          :: diffed_areas u ps (diff_step (u p) acc).2 := rfl

theorem diffed_areas_keys (u : String → Option (Finset ℕ)) :
    ∀ (ps : List String) (acc : Option (Finset ℕ)),
      (diffed_areas u ps acc).map Prod.fst = ps := by
  intro ps
  induction ps with
  | nil => intro acc; rfl
  | cons p ps ih => intro acc; simp [diffed_areas_cons, ih]

theorem diffed_areas_disjoint_acc (u : String → Option (Finset ℕ)) :
    ∀ (ps : List String) (h : Finset ℕ) (x : String × Option (Finset ℕ)),
      x ∈ diffed_areas u ps (some h) → ∀ d, x.2 = some d → d ∩ h = ∅ := by
  intro ps
  induction ps with
  | nil => intro h x hx; simp [diffed_areas] at hx
  | cons p ps ih =>
      intro h x hx d hd
      rw [diffed_areas_cons] at hx
      cases hu : u p with
      | none =>
          rw [hu] at hx
          rcases List.mem_cons.mp hx with hx | hx
          · subst hx; simp [diff_step] at hd
          · exact ih h x (by simpa [diff_step] using hx) d hd
      | some g =>
          rw [hu] at hx
          rcases List.mem_cons.mp hx with hx | hx
          · subst hx
            simp only [diff_step] at hd
            obtain rfl : g \ h = d := Option.some.inj hd
            exact Finset.sdiff_inter_self h g
          · have hx2 : x ∈ diffed_areas u ps (some (h ∪ g)) := by
              simpa [diff_step] using hx
            have hbig := ih (h ∪ g) x hx2 d hd
            apply Finset.subset_empty.mp
            calc d ∩ h ⊆ d ∩ (h ∪ g) :=
                  Finset.inter_subset_inter (Finset.Subset.refl d)
                    Finset.subset_union_left
              _ = ∅ := hbig

theorem diffed_areas_pairwise (u : String → Option (Finset ℕ)) :
    ∀ (ps : List String) (acc : Option (Finset ℕ)),
      List.Pairwise DisjointEntry (diffed_areas u ps acc) := by
  intro ps
  induction ps with
  | nil => intro acc; simp [diffed_areas]
  | cons p ps ih =>
      intro acc
      rw [diffed_areas_cons]
      cases hu : u p with
      | none =>
          refine List.Pairwise.cons ?_ (by simpa [diff_step] using ih acc)
          intro y hy d₁ d₂ h1 h2
          simp [diff_step] at h1
      | some g =>
          cases acc with
          | none =>
              refine List.Pairwise.cons ?_
                (by simpa [diff_step] using ih (some g))
              intro y hy d₁ d₂ h1 h2
              simp only [diff_step] at h1
              obtain rfl : g = d₁ := Option.some.inj h1
              simp only [diff_step] at hy
              have := diffed_areas_disjoint_acc u ps g y hy d₂ h2
              rw [Finset.inter_comm]; exact this
          | some hacc =>
              refine List.Pairwise.cons ?_
                (by simpa [diff_step] using ih (some (hacc ∪ g)))
              intro y hy d₁ d₂ h1 h2
              simp only [diff_step] at h1
              obtain rfl : g \ hacc = d₁ := Option.some.inj h1
              simp only [diff_step] at hy
              have hbig := diffed_areas_disjoint_acc u ps (hacc ∪ g) y hy d₂ h2
              apply Finset.subset_empty.mp
              calc (g \ hacc) ∩ d₂ ⊆ (hacc ∪ g) ∩ d₂ :=
                    Finset.inter_subset_inter
                      (Finset.sdiff_subset.trans Finset.subset_union_right)
                      (Finset.Subset.refl d₂)
                _ = d₂ ∩ (hacc ∪ g) := Finset.inter_comm _ _
                _ = ∅ := hbig

/-- Claim C2: for any two UseTypes A and B with A strictly higher priority
than B in the fixed priority list, the exclusive geometry computed for B (its
union minus the running union of all higher-priority unions) is disjoint from
the exclusive geometry computed for A — intersection area zero — for every
assignment of per-UseType unions. -/
theorem C2_exclusive_disjoint (u : String → Option (Finset ℕ)) (i j : ℕ)
    (hi : i < (diffed_areas u use_priority none).length)
    (hj : j < (diffed_areas u use_priority none).length)
    (hij : i < j) (d₁ d₂ : Finset ℕ)
    (hd₁ : ((diffed_areas u use_priority none).get ⟨i, hi⟩).2 = some d₁)
    (hd₂ : ((diffed_areas u use_priority none).get ⟨j, hj⟩).2 = some d₂) :
    (d₁ ∩ d₂).card = 0 := by
  have hp := diffed_areas_pairwise u use_priority none
  have hrel := (List.pairwise_iff_get.mp hp) ⟨i, hi⟩ ⟨j, hj⟩ hij
  have hdisj := hrel d₁ d₂ hd₁ hd₂
  simp [hdisj]

theorem C2_exclusive_disjoint_witness :
    ((({0, 1} : Finset ℕ) ∩ ({2} : Finset ℕ)).card = 0) :=
  C2_exclusive_disjoint u₀ 0 1 (by decide) (by decide) (by decide)
    {0, 1} {2} (by decide) (by decide)

/-- Claim C3 (code bug): with a city of positive area and zero
sub-boundaries the fix-sub-boundaries stage does not produce a full-city
Restgebiet — it fails, because the Restgebiet row is templated from the first
row of the empty sub-boundary set (`boundaries_within.iloc[[0]]` raises
`IndexError`). -/
theorem C3_empty_subboundaries_crash :
    fix_sub_boundaries ({0} : Finset ℕ) ([] : List SubBoundary) = none := by
  decide

end GeoStat

namespace GeoStat

/-- Claim C4: the classification function is pure and total — for every tag
row it returns exactly one label from the fixed UseType set, an all-absent row
falls through to "null", a feature with both amenity=place_of_worship and
landuse=forest classifies as special_use (first rule wins), and a value
counts as present only when it is not None, not numeric NaN, and not the
case-insensitive (stripped) token "none", "null" or the empty string. -/
theorem C4_classification_total (row : TagRow) :
    classify_use row ∈ use_priority
      ∧ classify_use {} = "null"
      ∧ classify_use { amenity := TagValue.str "place_of_worship",
                       landuse := TagValue.str "forest" } = "special_use"
      ∧ has_value TagValue.absent = false
      ∧ has_value TagValue.nan = false
      ∧ ∀ s : String, (has_value (TagValue.str s) = true
          ↔ py_strip_lower s ∉ (["none", "null", ""] : List String)) := by
  refine ⟨?_, by decide, by decide, rfl, rfl, ?_⟩
  · unfold classify_use
    split_ifs <;> simp [use_priority]
  · intro s
    simp [has_value, List.elem_iff]

end GeoStat

namespace GeoStat

theorem areaOf_none (geom : Finset ℕ) : areaOf geom none = 0 := rfl

theorem areaOf_some (geom d : Finset ℕ) :
    areaOf geom (some d) = ((geom ∩ d).card : ℚ) := rfl

theorem sum_areaOf_le :
    ∀ (l : List (String × Option (Finset ℕ))) (geom : Finset ℕ),
      l.Pairwise DisjointEntry →
      (l.map (fun pd => areaOf geom pd.2)).sum ≤ (geom.card : ℚ) := by
  intro l
  induction l with
  | nil => intro geom _; simp
  | cons pd t ih =>
      intro geom hp
      obtain ⟨hrel, hpt⟩ := List.pairwise_cons.mp hp
      cases hpd : pd.2 with
      | none =>
          simpa [areaOf_none, hpd] using ih geom hpt
      | some d =>
          have hcong : t.map (fun pdd => areaOf geom pdd.2)
              = t.map (fun pdd => areaOf (geom \ d) pdd.2) := by
            apply List.map_congr_left
            intro y hy
            cases hy2 : y.2 with
            | none => simp [areaOf, hy2]
            | some d₂ =>
                have hdisj : d ∩ d₂ = ∅ := hrel y hy d d₂ hpd hy2
                have hset : geom ∩ d₂ = (geom \ d) ∩ d₂ := by
                  ext a
                  simp only [Finset.mem_inter, Finset.mem_sdiff]
                  constructor
                  · rintro ⟨hg, h2⟩
                    refine ⟨⟨hg, fun hd => ?_⟩, h2⟩
                    have : a ∈ d ∩ d₂ := Finset.mem_inter.mpr ⟨hd, h2⟩
                    simp [hdisj] at this
                  · rintro ⟨⟨hg, _⟩, h2⟩; exact ⟨hg, h2⟩
                simp [areaOf_some, hy2, hset]
          have hcards : ((geom ∩ d).card : ℚ) + ((geom \ d).card : ℚ)
              = (geom.card : ℚ) := by
            exact_mod_cast Finset.card_inter_add_card_sdiff geom d
          have ht := ih (geom \ d) hpt
          simp only [List.map_cons, List.sum_cons, hpd, areaOf_some, hcong]
          linarith

theorem sum_map_bump (entries : List (String × ℚ)) (c : ℚ) :
    ((entries.map (fun pv =>
        if pv.1 == "null" then (pv.1, pv.2 + c) else pv)).map Prod.snd).sum
      = (entries.map Prod.snd).sum
        + (entries.countP (fun pv => pv.1 == "null") : ℚ) * c := by
  induction entries with
  | nil => simp
  | cons pv t ih =>
      cases h : (pv.1 == "null") with
      | true =>
          simp only [List.map_cons, List.sum_cons, h, if_true,
            List.countP_cons, ih]
          push_cast [h]
          ring
      | false =>
          simp only [List.map_cons, List.sum_cons, h, if_false,
            List.countP_cons, ih]
          push_cast [h]
          ring

/-- Claim C1 (amended): for the exclusive geometries actually produced by the
priority-ordered overlap-resolution step — for every assignment of
per-UseType unions and every boundary geometry — the sum of the per-UseType
areas of `_get_area_dict` (including the null bucket, which receives its own
intersection area plus the floored-at-zero remainder) equals the row's
`total_area`.  For an arbitrary overlapping assignment of exclusive
geometries the equality can fail (see the counterexample). -/
theorem C1_area_conservation (u : String → Option (Finset ℕ))
    (geom : Finset ℕ) :
    ((get_area_dict (diffed_areas u use_priority none) geom).1.map
        Prod.snd).sum
      = (get_area_dict (diffed_areas u use_priority none) geom).2 := by
  have hkeys : (diffed_areas u use_priority none).map Prod.fst = use_priority :=
    diffed_areas_keys u use_priority none
  have hpair : (diffed_areas u use_priority none).Pairwise DisjointEntry :=
    diffed_areas_pairwise u use_priority none
  set l := diffed_areas u use_priority none with hl
  set base := l.map (fun pd => (pd.1, areaOf geom pd.2)) with hbase
  have hsnd : base.map Prod.snd = l.map (fun pd => areaOf geom pd.2) := by
    rw [hbase, List.map_map]; rfl
  have hassigned : (base.map Prod.snd).sum ≤ (geom.card : ℚ) := by
    rw [hsnd]; exact sum_areaOf_le l geom hpair
  have hcount : base.countP (fun pv => pv.1 == "null") = 1 := by
    have h1 : base.countP (fun pv => pv.1 == "null")
        = l.countP (fun pd => pd.1 == "null") := by
      rw [hbase, List.countP_map]; rfl
    have h2 : l.countP (fun pd => pd.1 == "null")
        = (l.map Prod.fst).countP (fun s => s == "null") := by
      rw [List.countP_map]; rfl
    rw [h1, h2, hkeys]; decide
  have hany : base.any (fun pv => pv.1 == "null") = true := by
    rw [List.any_eq_true]
    have := List.countP_pos_iff (p := fun pv => pv.1 == "null") (l := base)
    exact this.mp (by omega)
  show ((bump_null base (max 0 ((geom.card : ℚ) - (base.map Prod.snd).sum))).map
      Prod.snd).sum = (geom.card : ℚ)
  rw [bump_null, if_pos hany, sum_map_bump, hcount]
  have hmax : max 0 ((geom.card : ℚ) - (base.map Prod.snd).sum)
      = (geom.card : ℚ) - (base.map Prod.snd).sum :=
    max_eq_right (by linarith)
  rw [hmax]
  push_cast
  ring

/-- Claim C1 counterexample: with boundary geometry of area 1 and the
overlapping exclusive assignment `bad_diffed`, the per-UseType areas
(null bucket included) sum to 2 while `total_area` is 1 — the claim is false
for an arbitrary assignment of exclusive geometries. -/
theorem C1_counterexample :
    ¬ (((get_area_dict bad_diffed ({0} : Finset ℕ)).1.map Prod.snd).sum
        = (get_area_dict bad_diffed ({0} : Finset ℕ)).2) := by
  have h0 : (({0} : Finset ℕ) ∩ {0}).card = 1 := by decide
  have hc : (({0} : Finset ℕ).card : ℚ) = 1 := by norm_num
  simp only [get_area_dict, bad_diffed, bump_null, areaOf, List.map_cons,
    List.map_nil, List.any_cons, List.any_nil, List.sum_cons, List.sum_nil,
    h0, hc]
  norm_num

end GeoStat

namespace GeoStat

theorem round_half_even_intCast (n : ℤ) : round_half_even ((n : ℚ)) = n := by
  unfold round_half_even
  norm_num

theorem round2_natCast (n : ℕ) : round2 ((n : ℚ)) = n := by
  unfold round2
  have h : ((n : ℚ) * 100) = (((n * 100 : ℤ) : ℤ) : ℚ) := by push_cast; ring
  rw [h, round_half_even_intCast]
  push_cast
  field_simp

theorem round2_zero : round2 0 = 0 := by
  unfold round2 round_half_even
  norm_num

theorem den_round2 (q : ℚ) : (100 * round2 q).den = 1 := by
  unfold round2
  have h : (100 : ℚ) * ((round_half_even (q * 100) : ℚ) / 100)
      = ((round_half_even (q * 100) : ℚ)) := by
    field_simp
  rw [h]
  exact Rat.den_intCast _

/-- Claim C10: in the emitted statistics table, every numeric column is
rounded to 2 decimal places — the per-UseType areas, the null bucket, the
total area and the percentage columns all carry values with at most two
decimal digits — for every row of every run. -/
theorem C10_all_columns_rounded (city_name : String) (features : List Feature)
    (boundaries : List SubBoundary) :
    ∀ row ∈ compute_statistics city_name features boundaries,
      (∀ pv ∈ row.areas, (100 * pv.2).den = 1)
        ∧ (100 * row.total_area).den = 1
        ∧ (∀ pv ∈ row.pcts, (100 * pv.2).den = 1) := by
  intro row hrow
  simp only [compute_statistics, List.mem_map] at hrow
  obtain ⟨r, _hr, rfl⟩ := hrow
  refine ⟨?_, ?_, ?_⟩
  · intro pv hpv
    simp only [round_row, List.mem_map] at hpv
    obtain ⟨q, _hq, rfl⟩ := hpv
    exact den_round2 q.2
  · exact den_round2 r.total_area
  · intro pv hpv
    simp only [round_row, List.mem_map] at hpv
    obtain ⟨q, _hq, rfl⟩ := hpv
    exact den_round2 q.2

theorem C10_all_columns_rounded_witness :
    (∀ pv ∈ stat_row₀.areas, (100 * pv.2).den = 1)
      ∧ (100 * stat_row₀.total_area).den = 1
      ∧ (∀ pv ∈ stat_row₀.pcts, (100 * pv.2).den = 1) :=
  C10_all_columns_rounded "c" [] [] stat_row₀ (by
    have hr0 : round2 0 = 0 := round2_zero
    simp [compute_statistics, make_row, get_area_dict, bump_null,
      use_type_unions, diffed_areas, diff_step, use_priority, union_all,
      round_row, hr0, areaOf, stat_row₀])

/-- Claim C5 (amended): the first row of the statistics output is labeled
`all (<city>)` and its `total_area` is the area of the union of all Feature
geometries — not, in general, the area of the City geometry (see the
counterexample): the City geometry is not an input of the statistics stage,
and the two areas agree only when the Features cover the City. -/
theorem C5_first_row (city_name : String) (features : List Feature)
    (boundaries : List SubBoundary) :
    (compute_statistics city_name features boundaries).headI.name
        = "all (" ++ city_name ++ ")"
      ∧ (compute_statistics city_name features boundaries).headI.total_area
        = ((union_all (features.map Feature.geometry)).card : ℚ) := by
  constructor
  · rfl
  · show round2 (((union_all (features.map Feature.geometry)).card : ℚ))
        = ((union_all (features.map Feature.geometry)).card : ℚ)
    exact round2_natCast _

/-- Claim C5 counterexample: running the pipeline on `cex_data` — a City of
area 2 whose Features only cover area 1 — the first statistics row has
`total_area` 1, not the area of the City geometry: the first row's
`total_area` is the area of the union of Feature geometries. -/
theorem C5_counterexample :
    ((run_from 0 "c" cex_data cex_data).getD []).headI.total_area
      ≠ (cex_data.city.card : ℚ) := by
  have hfix : fix_sub_boundaries cex_data.city cex_data.boundaries
      = some cex_data.boundaries := by decide
  have hrun : run_from 0 "c" cex_data cex_data
      = some (compute_statistics "c"
          (add_use_classification cex_data.features) cex_data.boundaries) := by
    simp [run_from, hfix]
  rw [hrun, Option.getD_some]
  have htot : (compute_statistics "c"
      (add_use_classification cex_data.features)
      cex_data.boundaries).headI.total_area
      = round2 (((union_all ((add_use_classification cex_data.features).map
          Feature.geometry)).card : ℚ)) := rfl
  rw [htot]
  have hcard1 : (union_all ((add_use_classification cex_data.features).map
      Feature.geometry)).card = 1 := by decide
  have hcard2 : cex_data.city.card = 2 := by decide
  rw [hcard1, hcard2, round2_natCast 1]
  norm_num

end GeoStat

namespace GeoStat

theorem union_all_append (xs ys : List (Finset ℕ)) :
    union_all (xs ++ ys) = union_all xs ∪ union_all ys := by
  induction xs with
  | nil => simp [union_all]
  | cons x xs ih =>
      show x ∪ union_all (xs ++ ys) = x ∪ union_all xs ∪ union_all ys
      rw [ih, Finset.union_assoc]

theorem union_all_subset {t : Finset ℕ} :
    ∀ gs : List (Finset ℕ), (∀ g ∈ gs, g ⊆ t) → union_all gs ⊆ t := by
  intro gs
  induction gs with
  | nil => intro _; simp [union_all]
  | cons g gs ih =>
      intro h
      show g ∪ union_all gs ⊆ t
      exact Finset.union_subset (h g (List.mem_cons_self g gs))
        (ih fun g' hg' => h g' (List.mem_cons_of_mem g hg'))

theorem union_all_singleton (g : Finset ℕ) : union_all [g] = g := by
  simp [union_all]

/-- Claim C6 (amended): for every City geometry and non-empty SubBoundary
set, the fix-sub-boundaries stage succeeds, leaves the set unchanged when the
residual (City minus the union of SubBoundary geometries) is empty, otherwise
appends exactly one synthetic SubBoundary named "Restgebiet" carrying the
residual geometry; afterwards the union of all SubBoundary geometries
CONTAINS the City geometry, and it EQUALS the City geometry when every
SubBoundary geometry lies inside the City (sub-boundaries may overhang the
City — only their centroids are required to lie inside — so equality does
not hold unconditionally; see the counterexample). -/
theorem C6_partition_completeness (city_geom : Finset ℕ)
    (boundaries : List SubBoundary) (hne : boundaries ≠ []) :
    ∃ r, fix_sub_boundaries city_geom boundaries = some r
      ∧ (city_geom \ union_all (boundaries.map SubBoundary.geometry) = ∅ →
          r = boundaries)
      ∧ (city_geom \ union_all (boundaries.map SubBoundary.geometry) ≠ ∅ →
          ∃ t, r = boundaries ++ [t] ∧ t.name = "Restgebiet"
            ∧ t.geometry
              = city_geom \ union_all (boundaries.map SubBoundary.geometry))
      ∧ city_geom ⊆ union_all (r.map SubBoundary.geometry)
      ∧ ((∀ b ∈ boundaries, b.geometry ⊆ city_geom) →
          union_all (r.map SubBoundary.geometry) = city_geom) := by
  have hrest_eq : city_geom
      \ (union_all (boundaries.map SubBoundary.geometry) ∩ city_geom)
      = city_geom \ union_all (boundaries.map SubBoundary.geometry) := by
    ext a
    simp only [Finset.mem_sdiff, Finset.mem_inter]
    tauto
  by_cases h0 : (city_geom
      \ (union_all (boundaries.map SubBoundary.geometry) ∩ city_geom)).card
      = 0
  · have hfix : fix_sub_boundaries city_geom boundaries = some boundaries := by
      simp only [fix_sub_boundaries]
      rw [if_pos h0]
    have hresid : city_geom \ union_all (boundaries.map SubBoundary.geometry)
        = ∅ := by
      rw [← hrest_eq]
      exact Finset.card_eq_zero.mp h0
    have hcover : city_geom ⊆ union_all (boundaries.map SubBoundary.geometry) :=
      Finset.sdiff_eq_empty_iff_subset.mp hresid
    refine ⟨boundaries, hfix, fun _ => rfl, fun hc => absurd hresid hc,
      hcover, ?_⟩
    intro hin
    refine Finset.Subset.antisymm ?_ hcover
    apply union_all_subset
    intro g hg
    obtain ⟨b, hb, rfl⟩ := List.mem_map.mp hg
    exact hin b hb
  · rcases boundaries with _ | ⟨b, bs⟩
    · exact absurd rfl hne
    have hfix : fix_sub_boundaries city_geom (b :: bs)
        = some ((b :: bs) ++ [⟨"Restgebiet",
            city_geom \ (union_all ((b :: bs).map SubBoundary.geometry)
              ∩ city_geom)⟩]) := by
      simp only [fix_sub_boundaries]
      rw [if_neg h0]
    have hresid : city_geom
        \ union_all ((b :: bs).map SubBoundary.geometry) ≠ ∅ := by
      rw [← hrest_eq]
      intro hc
      exact h0 (by rw [hc]; exact Finset.card_empty)
    have hshape : union_all (((b :: bs) ++ [(⟨"Restgebiet",
          city_geom \ (union_all ((b :: bs).map SubBoundary.geometry)
            ∩ city_geom)⟩ : SubBoundary)]).map SubBoundary.geometry)
        = union_all ((b :: bs).map SubBoundary.geometry)
          ∪ (city_geom \ union_all ((b :: bs).map SubBoundary.geometry)) := by
      rw [List.map_append, union_all_append, hrest_eq]
      simp [union_all_singleton]
    refine ⟨_, hfix, fun hc => absurd hc hresid, fun _ => ?_, ?_, ?_⟩
    · exact ⟨_, rfl, rfl, by rw [hrest_eq]⟩
    · rw [hshape]
      intro a ha
      by_cases hm : a ∈ union_all ((b :: bs).map SubBoundary.geometry)
      · exact Finset.mem_union_left _ hm
      · exact Finset.mem_union_right _ (Finset.mem_sdiff.mpr ⟨ha, hm⟩)
    · intro hin
      rw [hshape]
      have hsub : union_all ((b :: bs).map SubBoundary.geometry)
          ⊆ city_geom := by
        apply union_all_subset
        intro g hg
        obtain ⟨b', hb', rfl⟩ := List.mem_map.mp hg
        exact hin b' hb'
      exact Finset.union_sdiff_of_subset hsub

/-- Claim C6 counterexample: a single sub-boundary whose geometry overhangs
the City (cells 0 and 1 against a City of cell 0 only) passes the stage
unchanged, and the union of the SubBoundary geometries is strictly larger
than the City geometry — "union equals City" fails without the containment
side-condition. -/
theorem C6_counterexample :
    fix_sub_boundaries ({0} : Finset ℕ) [⟨"b", ({0, 1} : Finset ℕ)⟩]
      = some [⟨"b", ({0, 1} : Finset ℕ)⟩]
      ∧ union_all (([⟨"b", ({0, 1} : Finset ℕ)⟩] : List SubBoundary).map
          SubBoundary.geometry) ≠ ({0} : Finset ℕ) := by
  decide

theorem C6_partition_completeness_witness :
    ∃ r, fix_sub_boundaries ({0, 1} : Finset ℕ)
          [⟨"b", ({0} : Finset ℕ)⟩] = some r
      ∧ (({0, 1} : Finset ℕ)
            \ union_all (([⟨"b", ({0} : Finset ℕ)⟩] : List SubBoundary).map
                SubBoundary.geometry) = ∅ →
          r = [⟨"b", ({0} : Finset ℕ)⟩])
      ∧ (({0, 1} : Finset ℕ)
            \ union_all (([⟨"b", ({0} : Finset ℕ)⟩] : List SubBoundary).map
                SubBoundary.geometry) ≠ ∅ →
          ∃ t, r = [⟨"b", ({0} : Finset ℕ)⟩] ++ [t]
            ∧ t.name = "Restgebiet"
            ∧ t.geometry = ({0, 1} : Finset ℕ)
                \ union_all (([⟨"b", ({0} : Finset ℕ)⟩] :
                    List SubBoundary).map SubBoundary.geometry))
      ∧ ({0, 1} : Finset ℕ) ⊆ union_all (r.map SubBoundary.geometry)
      ∧ ((∀ b ∈ ([⟨"b", ({0} : Finset ℕ)⟩] : List SubBoundary),
            SubBoundary.geometry b ⊆ ({0, 1} : Finset ℕ)) →
          union_all (r.map SubBoundary.geometry) = ({0, 1} : Finset ℕ)) :=
  C6_partition_completeness ({0, 1} : Finset ℕ)
    [⟨"b", ({0} : Finset ℕ)⟩] (by decide)

end GeoStat

namespace GeoStat

/-- Claim C7: running the pipeline from scratch and running it in two halves
— interrupted after stage 2 with its state persisted as "boundaries_fixed",
then resumed from the cache with the stages up to the recorded state skipped
— produce identical final statistics output (the statistics stage is
executed in both runs: every reachable state index is below 4). -/
theorem C7_resume_idempotence (city_name : String) (d : PipeData)
    (bs' : List SubBoundary)
    (hfix : fix_sub_boundaries d.city d.boundaries = some bs') :
    run_from 0 city_name d d
      = run_from (state_index_of (some "boundaries_fixed")) city_name
          { city := d.city, boundaries := bs', features := d.features }
          { city := d.city, boundaries := bs', features := d.features } := by
  have hidx : state_index_of (some "boundaries_fixed") = 2 := rfl
  rw [hidx]
  simp [run_from, hfix]

theorem C7_resume_idempotence_witness :
    run_from 0 "c" w_data w_data
      = run_from (state_index_of (some "boundaries_fixed")) "c"
          { city := w_data.city, boundaries := [⟨"b", ({0} : Finset ℕ)⟩],
            features := w_data.features }
          { city := w_data.city, boundaries := [⟨"b", ({0} : Finset ℕ)⟩],
            features := w_data.features } :=
  C7_resume_idempotence "c" w_data [⟨"b", ({0} : Finset ℕ)⟩] (by decide)

theorem foldl_min_spec :
    ∀ (xs : List ℤ) (x : ℤ),
      (xs.foldl min x = x ∨ xs.foldl min x ∈ xs)
        ∧ xs.foldl min x ≤ x ∧ ∀ y ∈ xs, xs.foldl min x ≤ y := by
  intro xs
  induction xs with
  | nil => intro x; exact ⟨Or.inl rfl, le_refl x, by simp⟩
  | cons a t ih =>
      intro x
      have hstep : (a :: t).foldl min x = t.foldl min (min x a) := rfl
      obtain ⟨hmem, hle, hall⟩ := ih (min x a)
      refine ⟨?_, ?_, ?_⟩
      · rcases hmem with h | h
        · rcases le_total x a with hxa | hax
          · left; rw [hstep, h, min_eq_left hxa]
          · right; rw [hstep, h, min_eq_right hax]
            exact List.mem_cons_self a t
        · right; rw [hstep]; exact List.mem_cons_of_mem a h
      · rw [hstep]
        exact hle.trans (min_le_left x a)
      · intro y hy
        rcases List.mem_cons.mp hy with rfl | hy
        · rw [hstep]; exact hle.trans (min_le_right x y)
        · rw [hstep]; exact hall y hy

/-- Claim C8: sub-district level determination fails (the source raises
`ValueError("cant determine sub_admin_level")`, the spec's
ConfigurationError) exactly when no AdminBoundary has an administrative level
strictly greater than the City's; otherwise the chosen level is the
operator's choice, defaulting to the numerically lowest of the
strictly-finer levels. -/
theorem C8_sub_district_level (admin_levels : List ℤ) (city_level : ℤ)
    (operator_choice : Option ℤ) :
    ((∀ l ∈ admin_levels, ¬ city_level < l) →
        set_subcity_admin_level admin_levels city_level operator_choice
          = Except.error "cant determine sub_admin_level")
      ∧ ((∃ l ∈ admin_levels, city_level < l) →
        ∃ d, d ∈ admin_levels ∧ city_level < d
          ∧ (∀ l ∈ admin_levels, city_level < l → d ≤ l)
          ∧ set_subcity_admin_level admin_levels city_level operator_choice
            = Except.ok (operator_choice.getD d)) := by
  constructor
  · intro h
    have hfil : admin_levels.filter (fun l => city_level < l) = [] := by
      rw [List.filter_eq_nil_iff]
      intro a ha
      simpa using h a ha
    unfold set_subcity_admin_level
    rw [hfil]
    rfl
  · intro h
    have hfil : admin_levels.filter (fun l => city_level < l) ≠ [] := by
      obtain ⟨l, hl, hlt⟩ := h
      intro hc
      have hmem : l ∈ admin_levels.filter (fun l => city_level < l) :=
        List.mem_filter.mpr ⟨hl, by simpa using hlt⟩
      rw [hc] at hmem
      simp at hmem
    obtain ⟨x, xs, hx⟩ := List.exists_cons_of_ne_nil hfil
    obtain ⟨hmem, hlex, hall⟩ := foldl_min_spec xs x
    have hin : xs.foldl min x
        ∈ admin_levels.filter (fun l => city_level < l) := by
      rw [hx]
      rcases hmem with h' | h'
      · rw [h']; exact List.mem_cons_self x xs
      · exact List.mem_cons_of_mem x h'
    have hin2 := List.mem_filter.mp hin
    refine ⟨xs.foldl min x, hin2.1, by simpa using hin2.2, ?_, ?_⟩
    · intro l hl hlt
      have hlfil : l ∈ admin_levels.filter (fun l => city_level < l) :=
        List.mem_filter.mpr ⟨hl, by simpa using hlt⟩
      rw [hx] at hlfil
      rcases List.mem_cons.mp hlfil with rfl | hl2
      · exact hlex
      · exact hall l hl2
    · unfold set_subcity_admin_level
      rw [hx]
      rfl

theorem C8_sub_district_level_witness :
    ∃ d, d ∈ ([9, 6, 10] : List ℤ) ∧ (6 : ℤ) < d
      ∧ (∀ l ∈ ([9, 6, 10] : List ℤ), (6 : ℤ) < l → d ≤ l)
      ∧ set_subcity_admin_level [9, 6, 10] 6 none
        = Except.ok ((none : Option ℤ).getD d) :=
  (C8_sub_district_level [9, 6, 10] 6 none).2 (by decide)

theorem pick_largest_spec :
    ∀ (cs : List AdminBoundary) (c : AdminBoundary),
      (pick_largest c cs = c ∨ pick_largest c cs ∈ cs)
        ∧ c.area_m2 ≤ (pick_largest c cs).area_m2
        ∧ ∀ x ∈ cs, x.area_m2 ≤ (pick_largest c cs).area_m2 := by
  intro cs
  induction cs with
  | nil => intro c; exact ⟨Or.inl rfl, le_refl _, by simp⟩
  | cons a t ih =>
      intro c
      have hstep : pick_largest c (a :: t)
          = pick_largest (if c.area_m2 < a.area_m2 then a else c) t := rfl
      obtain ⟨hmem, hle, hall⟩ := ih (if c.area_m2 < a.area_m2 then a else c)
      have hcc : c.area_m2 ≤ (if c.area_m2 < a.area_m2 then a else c).area_m2 := by
        split_ifs with hca
        · exact le_of_lt hca
        · exact le_refl _
      have hac : a.area_m2 ≤ (if c.area_m2 < a.area_m2 then a else c).area_m2 := by
        split_ifs with hca
        · exact le_refl _
        · exact not_lt.mp hca
      refine ⟨?_, ?_, ?_⟩
      · rcases hmem with h | h
        · rw [hstep, h]
          split_ifs with hca
          · right; exact List.mem_cons_self a t
          · left; rfl
        · right; rw [hstep]; exact List.mem_cons_of_mem a h
      · rw [hstep]; exact hcc.trans hle
      · intro x hx
        rcases List.mem_cons.mp hx with rfl | hx
        · rw [hstep]; exact hac.trans hle
        · rw [hstep]; exact hall x hx

/-- Claim C9: among the AdminBoundaries whose name exactly equals the
requested city name, the resolver selects a candidate of maximal projected
area (and it selects one whenever a candidate exists). -/
theorem C9_tiebreak_max_area (requested : String)
    (admin_boundaries : List AdminBoundary) (c : AdminBoundary)
    (hsel : extract_city_candidate requested admin_boundaries = some c) :
    c.name = requested ∧ c ∈ admin_boundaries
      ∧ ∀ b ∈ admin_boundaries, b.name = requested →
          b.area_m2 ≤ c.area_m2 := by
  unfold extract_city_candidate at hsel
  rcases hfe : admin_boundaries.filter (fun b => b.name == requested)
    with _ | ⟨x, xs⟩
  · rw [hfe] at hsel; cases hsel
  · rw [hfe] at hsel
    obtain rfl : pick_largest x xs = c := Option.some.inj hsel
    obtain ⟨hmem, hlex, hall⟩ := pick_largest_spec xs x
    have hcfil : pick_largest x xs
        ∈ admin_boundaries.filter (fun b => b.name == requested) := by
      rw [hfe]
      rcases hmem with h | h
      · rw [h]; exact List.mem_cons_self x xs
      · exact List.mem_cons_of_mem x h
    have hc2 := List.mem_filter.mp hcfil
    refine ⟨by simpa using hc2.2, hc2.1, ?_⟩
    intro b hb hbname
    have hbfil : b ∈ admin_boundaries.filter (fun b => b.name == requested) :=
      List.mem_filter.mpr ⟨hb, by simp [hbname]⟩
    rw [hfe] at hbfil
    rcases List.mem_cons.mp hbfil with rfl | hb2
    · exact hlex
    · exact hall b hb2

theorem C9_tiebreak_max_area_witness :
    (⟨"X", 1000000⟩ : AdminBoundary).name = "X"
      ∧ (⟨"X", 1000000⟩ : AdminBoundary)
          ∈ [(⟨"X", 50000⟩ : AdminBoundary), ⟨"X", 1000000⟩]
      ∧ ∀ b ∈ [(⟨"X", 50000⟩ : AdminBoundary), ⟨"X", 1000000⟩],
          b.name = "X" →
            b.area_m2 ≤ (⟨"X", 1000000⟩ : AdminBoundary).area_m2 :=
  C9_tiebreak_max_area "X" [⟨"X", 50000⟩, ⟨"X", 1000000⟩] ⟨"X", 1000000⟩
    (by decide)

end GeoStat
